import Mathlib

/-!
Verification of the Order-Book-Aggregator (`src/api.py`).

The program polls two venues (coinbase, gemini) for an order book,
merges their price levels into one internal book, and simulates the
cost of executing a market order against that merged view.

We embed the algorithmic core shallowly:
* prices, sizes and timestamps are rationals (the Python code uses
  floats; every claim here is about exact greedy arithmetic, which the
  rational model captures);
* the mutable per-venue snapshots become explicit arguments and
  results;
* the network call inside a fetcher becomes an explicit
  `NetResult` argument (success payload or the kind of exception
  `requests.get` / `raise_for_status` / `.json()` would raise).
-/

namespace OrderBookAgg

/-- One price level of the merged internal book: mirrors the dicts
`{"price": .., "size": .., "exchange": ..}` built by
`build_internal_order_book` (src/api.py lines 74-88). -/
structure Level where
  price : ℚ
  size : ℚ
  exchange : String
deriving DecidableEq, Repr

/-- Coinbase payload after JSON parsing: each level is a positional
pair `[price, size]` (src/api.py line 75 reads `level[0]`, `level[1]`). -/
structure CoinbaseBook where
  bids : List (ℚ × ℚ)
  asks : List (ℚ × ℚ)
deriving DecidableEq, Repr

/-- One Gemini level: a keyed record `{price, amount}`
(src/api.py line 79 reads `level["price"]`, `level["amount"]`). -/
structure GeminiLevel where
  price : ℚ
  amount : ℚ
deriving DecidableEq, Repr

/-- Gemini payload after JSON parsing. -/
structure GeminiBook where
  bids : List GeminiLevel
  asks : List GeminiLevel
deriving DecidableEq, Repr

/-- The merged internal order book (src/api.py lines 90-93). -/
structure InternalBook where
  bids : List Level
  asks : List Level
deriving DecidableEq, Repr

/-- Effective per-side-per-venue depth:
`min(self.depth, len(xs)) if self.depth else len(xs)`
(src/api.py lines 66-69).  `depth` is `none` for Python `None`; Python
truthiness makes both `None` and `0` take the un-truncated branch. -/
def effDepth (depth : Option ℕ) (available : ℕ) : ℕ :=
  match depth with
  | none => available
  | some d => if d = 0 then available else min d available

/-- `coinbase_book.get("bids") if coinbase_book else []`
(src/api.py line 62): an absent snapshot contributes an empty side. -/
def coinbaseBids (cb : Option CoinbaseBook) : List (ℚ × ℚ) :=
  match cb with | some b => b.bids | none => []

/-- `gemini_book.get("bids") if gemini_book else []` (src/api.py line 63). -/
def geminiBids (gm : Option GeminiBook) : List GeminiLevel :=
  match gm with | some b => b.bids | none => []

/-- `coinbase_book.get("asks") if coinbase_book else []` (src/api.py line 64). -/
def coinbaseAsks (cb : Option CoinbaseBook) : List (ℚ × ℚ) :=
  match cb with | some b => b.asks | none => []

/-- `gemini_book.get("asks") if gemini_book else []` (src/api.py line 65). -/
def geminiAsks (gm : Option GeminiBook) : List GeminiLevel :=
  match gm with | some b => b.asks | none => []

/-- `OrderBook.build_internal_order_book` (src/api.py lines 55-96):
reads the two snapshots (an absent one contributes `[]`), truncates
each venue side to the effective depth, normalizes the two wire
formats into `Level`s and concatenates coinbase levels before gemini
levels on each side. -/
def build_internal_order_book (cb : Option CoinbaseBook) (gm : Option GeminiBook)
    (depth : Option ℕ) : InternalBook :=
  let coinbase_bids := coinbaseBids cb
  let gemini_bids := geminiBids gm
  let coinbase_asks := coinbaseAsks cb
  let gemini_asks := geminiAsks gm
  let coinbase_bids_depth := effDepth depth coinbase_bids.length
  let gemini_bids_depth := effDepth depth gemini_bids.length
  let coinbase_asks_depth := effDepth depth coinbase_asks.length
  let gemini_asks_depth := effDepth depth gemini_asks.length
  let bids := (coinbase_bids.take coinbase_bids_depth).map
        (fun l => Level.mk l.1 l.2 "coinbase")
      ++ (gemini_bids.take gemini_bids_depth).map
        (fun l => Level.mk l.price l.amount "gemini")
  let asks := (coinbase_asks.take coinbase_asks_depth).map
        (fun l => Level.mk l.1 l.2 "coinbase")
      ++ (gemini_asks.take gemini_asks_depth).map
        (fun l => Level.mk l.price l.amount "gemini")
  InternalBook.mk bids asks

/-- One recorded fill `(exchange, size_take, price, cost)`
(src/api.py lines 153, 166). -/
structure Fill where
  exchange : String
  size : ℚ
  price : ℚ
  value : ℚ
deriving DecidableEq, Repr

/-- Result of one greedy walk: the fills, the accumulated value and the
remaining unfilled quantity. -/
structure WalkResult where
  fills : List Fill
  total : ℚ
  remaining : ℚ
deriving DecidableEq, Repr

/-- The greedy liquidity walk shared by the buy loop (src/api.py lines
147-154) and the sell loop (lines 160-167): at each level, stop if the
remaining quantity is `≤ 0`, otherwise take
`size_take = min(level.size, remaining)`, accumulate
`size_take * price`, record a fill and decrement the remainder. -/
def execWalk (levels : List Level) (remaining : ℚ) : WalkResult :=
  match levels with
  | [] => WalkResult.mk [] 0 remaining
  | l :: rest =>
    if remaining ≤ 0 then WalkResult.mk [] 0 remaining
    else
      let size_take := min l.size remaining
      let cost := size_take * l.price
      let r := execWalk rest (remaining - size_take)
      WalkResult.mk (Fill.mk l.exchange size_take l.price cost :: r.fills)
        (cost + r.total) r.remaining

/-- `asks.sort(key=lambda x: x["price"])` (src/api.py line 140): a
stable ascending sort by price of a copy of the ask list.  (A stable
sort's output is uniquely determined by the key order and the input
order, so the structural insertion sort used here produces exactly the
list Python's stable `sort` produces.) -/
def sortAsks (asks : List Level) : List Level :=
  asks.insertionSort (fun a b => a.price ≤ b.price)

/-- `bids.sort(key=lambda x: x["price"], reverse=True)` (src/api.py
line 141): a stable descending sort by price of a copy of the bid
list. -/
def sortBids (bids : List Level) : List Level :=
  bids.insertionSort (fun a b => b.price ≤ a.price)

/-- The observable loop state of `calculate_execution_prices`
(src/api.py lines 143-167): buy fills / cost / remaining quantity and
sell fills / revenue / remaining quantity. -/
structure ExecResult where
  buy_fills : List Fill
  cost_buy : ℚ
  remaining_buy : ℚ
  sell_fills : List Fill
  revenue_sell : ℚ
  remaining_sell : ℚ
deriving DecidableEq, Repr

/-- `OrderBook.calculate_execution_prices` (src/api.py lines 130-172)
on a present internal book: sort a copy of the asks ascending and of
the bids descending by price, then run the greedy walk for the buy and
the sell side with the requested quantity. -/
def calculate_execution_prices (book : InternalBook) (quantity_btc : ℚ) : ExecResult :=
  let buy := execWalk (sortAsks book.asks) quantity_btc
  let sell := execWalk (sortBids book.bids) quantity_btc
  ExecResult.mk buy.fills buy.total buy.remaining sell.fills sell.total sell.remaining

/-- `RateLimiter` state (src/api.py lines 7-11): the configured
minimum interval and the time of the last allowed call (initially
`0.0`). -/
structure RateLimiter where
  min_interval : ℚ
  last_called : ℚ
deriving DecidableEq, Repr

/-- `RateLimiter.allow` (src/api.py lines 13-19) at current time
`now`: returns `true` and records `now` iff
`now - last_called >= min_interval`, otherwise returns `false` and
leaves the state unchanged. -/
def RateLimiter.allow (rl : RateLimiter) (now : ℚ) : Bool × RateLimiter :=
  if rl.min_interval ≤ now - rl.last_called then
    (true, RateLimiter.mk rl.min_interval now)
  else
    (false, rl)

/-- The sequence of results of successive `allow()` calls at the given
times, threading the limiter state. -/
def allowTrace (rl : RateLimiter) : List ℚ → List Bool
  | [] => []
  | t :: ts => (rl.allow t).1 :: allowTrace (rl.allow t).2 ts

/-- The exception kinds a fetch iteration can raise (src/api.py lines
39-41): `requests.get` (transport), `raise_for_status` (protocol),
`.json()` (schema). -/
inductive FetchError where
  | transport
  | protocol
  | schema
deriving DecidableEq, Repr

/-- Outcome of the external network interaction of one fetch attempt. -/
inductive NetResult (α : Type) where
  | err (e : FetchError)
  | ok (data : α)
deriving DecidableEq, Repr

/-- Observable outcome of one `fetch_*` call: whether an exception
escaped the call, the stored snapshot afterwards, the limiter state
afterwards, and whether a network request was performed. -/
structure FetchOut (α : Type) where
  result : Except FetchError Unit
  snapshot : Option α
  limiter : RateLimiter
  requested : Bool
deriving Repr

/-- `OrderBook.fetch_coinbase` (src/api.py lines 34-43): if the rate
limiter denies, return at once without touching the network or the
snapshot; otherwise perform the request — any raised exception
propagates out uncaught (there is no try/except) — and on success
replace the snapshot wholesale. -/
def fetch_coinbase (limiter : RateLimiter) (snapshot : Option CoinbaseBook)
    (now : ℚ) (net : NetResult CoinbaseBook) : FetchOut CoinbaseBook :=
  let a := limiter.allow now
  if a.1 = false then FetchOut.mk (Except.ok ()) snapshot a.2 false
  else
    match net with
    | NetResult.err e => FetchOut.mk (Except.error e) snapshot a.2 true
    | NetResult.ok d => FetchOut.mk (Except.ok ()) (some d) a.2 true

/-- `OrderBook.fetch_gemini` (src/api.py lines 45-53): same shape as
`fetch_coinbase` for the gemini snapshot. -/
def fetch_gemini (limiter : RateLimiter) (snapshot : Option GeminiBook)
    (now : ℚ) (net : NetResult GeminiBook) : FetchOut GeminiBook :=
  let a := limiter.allow now
  if a.1 = false then FetchOut.mk (Except.ok ()) snapshot a.2 false
  else
    match net with
    | NetResult.err e => FetchOut.mk (Except.error e) snapshot a.2 true
    | NetResult.ok d => FetchOut.mk (Except.ok ()) (some d) a.2 true

/-- `coinbase_worker` (src/api.py lines 182-185) over a finite trace
of iterations (each an arrival time and a network outcome): the loop
body is a bare `ob.fetch_coinbase()`, so an exception escaping a fetch
terminates the thread — modelled by returning `false` together with
the snapshot at the moment the loop died; `true` means the loop
survived the whole trace. -/
def coinbase_worker (limiter : RateLimiter) (snapshot : Option CoinbaseBook) :
    List (ℚ × NetResult CoinbaseBook) → Option CoinbaseBook × Bool
  | [] => (snapshot, true)
  | (now, net) :: rest =>
    let o := fetch_coinbase limiter snapshot now net
    match o.result with
    | Except.error _ => (o.snapshot, false)
    | Except.ok _ => coinbase_worker o.limiter o.snapshot rest

/-- Number of levels of one merged side that came from the given
venue. -/
def venueCount (side : List Level) (ex : String) : ℕ :=
  (side.filter (fun l => l.exchange = ex)).length

/-! ### Projection lemmas for `calculate_execution_prices` -/

theorem calc_buy_fills (book : InternalBook) (q : ℚ) :
    (calculate_execution_prices book q).buy_fills = (execWalk (sortAsks book.asks) q).fills := rfl

theorem calc_cost_buy (book : InternalBook) (q : ℚ) :
    (calculate_execution_prices book q).cost_buy = (execWalk (sortAsks book.asks) q).total := rfl

theorem calc_remaining_buy (book : InternalBook) (q : ℚ) :
    (calculate_execution_prices book q).remaining_buy
      = (execWalk (sortAsks book.asks) q).remaining := rfl

theorem calc_sell_fills (book : InternalBook) (q : ℚ) :
    (calculate_execution_prices book q).sell_fills = (execWalk (sortBids book.bids) q).fills := rfl

theorem calc_revenue_sell (book : InternalBook) (q : ℚ) :
    (calculate_execution_prices book q).revenue_sell
      = (execWalk (sortBids book.bids) q).total := rfl

theorem calc_remaining_sell (book : InternalBook) (q : ℚ) :
    (calculate_execution_prices book q).remaining_sell
      = (execWalk (sortBids book.bids) q).remaining := rfl

/-! ### Lemmas about the greedy walk -/

theorem execWalk_nonpos (levels : List Level) (q : ℚ) (hq : q ≤ 0) :
    execWalk levels q = WalkResult.mk [] 0 q := by
  cases levels with
  | nil => rfl
  | cons l rest => simp [execWalk, hq]

theorem execWalk_remaining_eq (levels : List Level) (q : ℚ) :
    (execWalk levels q).remaining = q - ((execWalk levels q).fills.map Fill.size).sum := by
  induction levels generalizing q with
  | nil => simp [execWalk]
  | cons l rest ih =>
    by_cases hq : q ≤ 0
    · simp [execWalk, hq]
    · simp only [execWalk, if_neg hq, List.map_cons, List.sum_cons]
      rw [ih]
      ring

theorem execWalk_total_eq (levels : List Level) (q : ℚ) :
    (execWalk levels q).total
      = ((execWalk levels q).fills.map (fun f => f.size * f.price)).sum := by
  induction levels generalizing q with
  | nil => simp [execWalk]
  | cons l rest ih =>
    by_cases hq : q ≤ 0
    · simp [execWalk, hq]
    · simp only [execWalk, if_neg hq, List.map_cons, List.sum_cons]
      rw [ih]

theorem execWalk_remaining_zero (levels : List Level) (q : ℚ)
    (hsz : ∀ l ∈ levels, 0 ≤ l.size) (hq : 0 ≤ q)
    (htot : q ≤ (levels.map Level.size).sum) :
    (execWalk levels q).remaining = 0 := by
  induction levels generalizing q with
  | nil =>
    simp only [List.map_nil, List.sum_nil] at htot
    simp only [execWalk]
    linarith
  | cons l rest ih =>
    by_cases hq0 : q ≤ 0
    · have hq' : q = 0 := le_antisymm hq0 hq
      simp [execWalk, hq0, hq']
    · have hrest : ∀ x ∈ rest, 0 ≤ x.size := fun x hx => hsz x (List.mem_cons_of_mem _ hx)
      have hsum_rest : 0 ≤ (rest.map Level.size).sum := by
        apply List.sum_nonneg
        intro x hx
        obtain ⟨y, hy, rfl⟩ := List.mem_map.mp hx
        exact hrest y hy
      simp only [List.map_cons, List.sum_cons] at htot
      simp only [execWalk, if_neg hq0]
      apply ih _ hrest
      · have : min l.size q ≤ q := min_le_right _ _
        linarith
      · rcases le_total l.size q with h | h
        · rw [min_eq_left h]
          linarith
        · rw [min_eq_right h]
          simpa using hsum_rest

theorem execWalk_full_consume (levels : List Level) (q : ℚ)
    (hsz : ∀ l ∈ levels, 0 ≤ l.size)
    (htot : (levels.map Level.size).sum < q) :
    (execWalk levels q).fills
        = levels.map (fun l => Fill.mk l.exchange l.size l.price (l.size * l.price)) ∧
    (execWalk levels q).remaining = q - (levels.map Level.size).sum := by
  induction levels generalizing q with
  | nil => simp [execWalk]
  | cons l rest ih =>
    have hls : 0 ≤ l.size := hsz l (List.mem_cons_self _ _)
    have hrest : ∀ x ∈ rest, 0 ≤ x.size := fun x hx => hsz x (List.mem_cons_of_mem _ hx)
    have hsum_rest : 0 ≤ (rest.map Level.size).sum := by
      apply List.sum_nonneg
      intro x hx
      obtain ⟨y, hy, rfl⟩ := List.mem_map.mp hx
      exact hrest y hy
    simp only [List.map_cons, List.sum_cons] at htot ⊢
    have hq0 : ¬ q ≤ 0 := by linarith
    have hmin : min l.size q = l.size := min_eq_left (by linarith)
    obtain ⟨h1, h2⟩ := ih (q := q - l.size) hrest (by linarith)
    simp only [execWalk, if_neg hq0, hmin]
    refine ⟨by rw [h1], ?_⟩
    rw [h2]
    ring

theorem execWalk_fill_bound (levels : List Level) (q : ℚ) :
    ∀ f ∈ (execWalk levels q).fills, ∃ l ∈ levels,
      f.exchange = l.exchange ∧ f.price = l.price ∧ f.size ≤ l.size := by
  induction levels generalizing q with
  | nil => simp [execWalk]
  | cons l rest ih =>
    by_cases hq : q ≤ 0
    · simp [execWalk, hq]
    · intro f hf
      simp only [execWalk, if_neg hq, List.mem_cons] at hf
      rcases hf with rfl | hf
      · exact ⟨l, List.mem_cons_self _ _, rfl, rfl, min_le_left _ _⟩
      · obtain ⟨x, hx, h⟩ := ih _ f hf
        exact ⟨x, List.mem_cons_of_mem _ hx, h⟩

/-! ### Lemmas about the simulator's local sorts -/

theorem sortAsks_perm (asks : List Level) : (sortAsks asks).Perm asks :=
  List.perm_insertionSort _ asks

theorem sortBids_perm (bids : List Level) : (sortBids bids).Perm bids :=
  List.perm_insertionSort _ bids

theorem sum_size_sortAsks (asks : List Level) :
    ((sortAsks asks).map Level.size).sum = (asks.map Level.size).sum :=
  ((sortAsks_perm asks).map Level.size).sum_eq

theorem sum_size_sortBids (bids : List Level) :
    ((sortBids bids).map Level.size).sum = (bids.map Level.size).sum :=
  ((sortBids_perm bids).map Level.size).sum_eq

theorem mem_sortAsks {l : Level} {asks : List Level} : l ∈ sortAsks asks ↔ l ∈ asks :=
  List.mem_insertionSort _

theorem mem_sortBids {l : Level} {bids : List Level} : l ∈ sortBids bids ↔ l ∈ bids :=
  List.mem_insertionSort _

/-! ### Lemmas about the rate limiter -/

theorem allow_true_iff (rl : RateLimiter) (now : ℚ) :
    (rl.allow now).1 = true ↔ rl.min_interval ≤ now - rl.last_called := by
  unfold RateLimiter.allow
  split <;> simp_all

theorem allow_true_state (rl : RateLimiter) (now : ℚ) (h : (rl.allow now).1 = true) :
    (rl.allow now).2 = RateLimiter.mk rl.min_interval now := by
  have hc := (allow_true_iff rl now).1 h
  unfold RateLimiter.allow
  rw [if_pos hc]

theorem allow_false_state (rl : RateLimiter) (now : ℚ) (h : (rl.allow now).1 = false) :
    (rl.allow now).2 = rl := by
  have hc : ¬ rl.min_interval ≤ now - rl.last_called := by
    intro hle
    have := (allow_true_iff rl now).2 hle
    simp [this] at h
  unfold RateLimiter.allow
  rw [if_neg hc]

theorem allow_min_interval (rl : RateLimiter) (now : ℚ) :
    (rl.allow now).2.min_interval = rl.min_interval := by
  unfold RateLimiter.allow
  split <;> rfl

theorem allow_last_mono (rl : RateLimiter) (now : ℚ) (hm : 0 ≤ rl.min_interval) :
    rl.last_called ≤ (rl.allow now).2.last_called := by
  unfold RateLimiter.allow
  split
  · rename_i hc
    simp only
    linarith
  · exact le_refl _

theorem allowTrace_true_lower (times : List ℚ) :
    ∀ (rl : RateLimiter), 0 ≤ rl.min_interval →
    ∀ (i : ℕ) (t : ℚ), (allowTrace rl times)[i]? = some true → times[i]? = some t →
      rl.last_called + rl.min_interval ≤ t := by
  induction times with
  | nil =>
    intro rl _ i t h _
    simp [allowTrace] at h
  | cons t0 ts ih =>
    intro rl hm i t htr htm
    cases i with
    | zero =>
      simp only [allowTrace, List.getElem?_cons_zero, Option.some.injEq] at htr htm
      subst htm
      have := (allow_true_iff rl t0).1 htr
      linarith
    | succ n =>
      simp only [allowTrace, List.getElem?_cons_succ] at htr htm
      have hm' : 0 ≤ ((rl.allow t0).2).min_interval := by
        rw [allow_min_interval]
        exact hm
      have h1 := ih ((rl.allow t0).2) hm' n t htr htm
      have h2 : rl.last_called ≤ (rl.allow t0).2.last_called := allow_last_mono rl t0 hm
      rw [allow_min_interval] at h1
      linarith

theorem allowTrace_spacing (times : List ℚ) :
    ∀ (rl : RateLimiter), 0 ≤ rl.min_interval →
    ∀ (i j : ℕ) (ti tj : ℚ), i < j →
      (allowTrace rl times)[i]? = some true →
      (allowTrace rl times)[j]? = some true →
      times[i]? = some ti → times[j]? = some tj →
      rl.min_interval ≤ tj - ti := by
  induction times with
  | nil =>
    intro rl _ i j ti tj _ hi
    simp [allowTrace] at hi
  | cons t0 ts ih =>
    intro rl hm i j ti tj hij hi hj hti htj
    cases j with
    | zero => omega
    | succ m =>
      simp only [allowTrace, List.getElem?_cons_succ] at hj htj
      have hm' : 0 ≤ ((rl.allow t0).2).min_interval := by
        rw [allow_min_interval]
        exact hm
      cases i with
      | zero =>
        simp only [allowTrace, List.getElem?_cons_zero, Option.some.injEq] at hi hti
        subst hti
        have hstate := allow_true_state rl t0 hi
        have hlow := allowTrace_true_lower ts ((rl.allow t0).2) hm' m tj hj htj
        rw [hstate] at hlow
        simp only at hlow
        linarith
      | succ n =>
        simp only [allowTrace, List.getElem?_cons_succ] at hi hti
        have := ih ((rl.allow t0).2) hm' n m ti tj (by omega) hi hj hti htj
        rw [allow_min_interval] at this
        exact this

/-! ### Helper lemma for per-venue filtering of a merged side -/

theorem filter_merged_coinbase (A : List (ℚ × ℚ)) (B : List GeminiLevel) (n m : ℕ) :
    ((A.take n).map (fun l => Level.mk l.1 l.2 "coinbase")
        ++ (B.take m).map (fun l => Level.mk l.price l.amount "gemini")).filter
          (fun l => l.exchange = "coinbase")
      = (A.take n).map (fun l => Level.mk l.1 l.2 "coinbase") := by
  rw [List.filter_append]
  have h1 : ((A.take n).map (fun l => Level.mk l.1 l.2 "coinbase")).filter
      (fun l => l.exchange = "coinbase")
      = (A.take n).map (fun l => Level.mk l.1 l.2 "coinbase") := by
    apply List.filter_eq_self.mpr
    intro a ha
    obtain ⟨x, _, rfl⟩ := List.mem_map.mp ha
    simp
  have h2 : ((B.take m).map (fun l => Level.mk l.price l.amount "gemini")).filter
      (fun l => l.exchange = "coinbase") = [] := by
    rw [List.filter_eq_nil_iff]
    intro a ha
    obtain ⟨x, _, rfl⟩ := List.mem_map.mp ha
    simp
  rw [h1, h2, List.append_nil]

theorem filter_merged_gemini (A : List (ℚ × ℚ)) (B : List GeminiLevel) (n m : ℕ) :
    ((A.take n).map (fun l => Level.mk l.1 l.2 "coinbase")
        ++ (B.take m).map (fun l => Level.mk l.price l.amount "gemini")).filter
          (fun l => l.exchange = "gemini")
      = (B.take m).map (fun l => Level.mk l.price l.amount "gemini") := by
  rw [List.filter_append]
  have h1 : ((A.take n).map (fun l => Level.mk l.1 l.2 "coinbase")).filter
      (fun l => l.exchange = "gemini") = [] := by
    rw [List.filter_eq_nil_iff]
    intro a ha
    obtain ⟨x, _, rfl⟩ := List.mem_map.mp ha
    simp
  have h2 : ((B.take m).map (fun l => Level.mk l.price l.amount "gemini")).filter
      (fun l => l.exchange = "gemini")
      = (B.take m).map (fun l => Level.mk l.price l.amount "gemini") := by
    apply List.filter_eq_self.mpr
    intro a ha
    obtain ⟨x, _, rfl⟩ := List.mem_map.mp ha
    simp
  rw [h1, h2, List.nil_append]

/-! ### Concrete example data (the scenario of the specification:
venue A asks `[[100, 1], [101, 2]]`, venue B asks
`[{price: "100.5", amount: "1.5"}]`, depth 2) -/

def exampleCoinbase : CoinbaseBook := CoinbaseBook.mk [] [(100, 1), (101, 2)]

def exampleGemini : GeminiBook := GeminiBook.mk [] [GeminiLevel.mk (201/2) (3/2)]

def exampleBook : InternalBook :=
  build_internal_order_book (some exampleCoinbase) (some exampleGemini) (some 2)

/-! ### Claims -/

/-- C6: building the merged book with one venue snapshot absent treats
the absent venue as an empty book: the result equals the merged book
built with the other venue's snapshot and an explicitly empty book. -/
theorem absent_snapshot_as_empty (cb : CoinbaseBook) (gm : GeminiBook) (depth : Option ℕ) :
    build_internal_order_book (some cb) none depth
        = build_internal_order_book (some cb) (some (GeminiBook.mk [] [])) depth ∧
    build_internal_order_book none (some gm) depth
        = build_internal_order_book (some (CoinbaseBook.mk [] [])) (some gm) depth := by
  constructor <;>
    simp [build_internal_order_book, coinbaseBids, geminiBids, coinbaseAsks, geminiAsks]

/-- C7 counterexample: for the requested quantity `-1` the buy-side
remainder left by `calculate_execution_prices` is `-1`, not
`max (-1) 0 = 0` as the claim states. -/
theorem nonpositive_qty_remainder_cex :
    (calculate_execution_prices (InternalBook.mk [] [Level.mk 100 1 "coinbase"]) (-1)).remaining_buy
      ≠ max (-1 : ℚ) 0 := by
  norm_num [calculate_execution_prices, execWalk, sortAsks, List.insertionSort,
    List.orderedInsert]

/-- C7 (amended): for every zero or negative requested quantity the
simulation fills nothing — no fills, zero total value on both sides —
and the remainder equals the requested quantity itself (the loop
variable is never decremented), not `max(quantity, 0)`. -/
theorem nonpositive_qty_noop (book : InternalBook) (q : ℚ) (hq : q ≤ 0) :
    calculate_execution_prices book q = ExecResult.mk [] 0 q [] 0 q := by
  have h1 := execWalk_nonpos (sortAsks book.asks) q hq
  have h2 := execWalk_nonpos (sortBids book.bids) q hq
  simp [calculate_execution_prices, h1, h2]

/-- Witness for the amended C7 at the concrete quantity `-1`. -/
theorem nonpositive_qty_noop_witness :
    (-1 : ℚ) ≤ 0 ∧
    calculate_execution_prices exampleBook (-1) = ExecResult.mk [] 0 (-1) [] 0 (-1) :=
  ⟨by norm_num, nonpositive_qty_noop exampleBook (-1) (by norm_num)⟩

/-- C9: every fill recorded by the execution simulation, on the buy and
on the sell side, corresponds to a level of the merged book and takes at
most that level's size. -/
theorem fill_size_le_level_size (book : InternalBook) (q : ℚ) :
    (∀ f ∈ (calculate_execution_prices book q).buy_fills,
        ∃ l ∈ book.asks, f.exchange = l.exchange ∧ f.price = l.price ∧ f.size ≤ l.size) ∧
    (∀ f ∈ (calculate_execution_prices book q).sell_fills,
        ∃ l ∈ book.bids, f.exchange = l.exchange ∧ f.price = l.price ∧ f.size ≤ l.size) := by
  constructor
  · intro f hf
    rw [calc_buy_fills] at hf
    obtain ⟨l, hl, h⟩ := execWalk_fill_bound (sortAsks book.asks) q f hf
    exact ⟨l, mem_sortAsks.mp hl, h⟩
  · intro f hf
    rw [calc_sell_fills] at hf
    obtain ⟨l, hl, h⟩ := execWalk_fill_bound (sortBids book.bids) q f hf
    exact ⟨l, mem_sortBids.mp hl, h⟩

/-- C10: a configured depth of `0` applies no truncation at all — the
merged book is the one built with unbounded depth, and each side holds
every level both venues returned. -/
theorem depth_zero_unbounded (cb : Option CoinbaseBook) (gm : Option GeminiBook) :
    build_internal_order_book cb gm (some 0) = build_internal_order_book cb gm none ∧
    (build_internal_order_book cb gm (some 0)).bids.length
        = (coinbaseBids cb).length + (geminiBids gm).length ∧
    (build_internal_order_book cb gm (some 0)).asks.length
        = (coinbaseAsks cb).length + (geminiAsks gm).length := by
  refine ⟨rfl, ?_, ?_⟩ <;> simp [build_internal_order_book, effDepth]

/-- C3 (code defect): when the network interaction of an allowed fetch
iteration fails, the exception escapes `fetch_coinbase` uncaught, and
the surrounding worker loop dies — a later iteration whose network
call would have succeeded never runs, so the loop is terminated by a
single fetch failure. -/
theorem fetch_failure_propagates_and_kills_worker :
    (fetch_coinbase (RateLimiter.mk 2 0) none 10 (NetResult.err FetchError.transport)).result
      = Except.error FetchError.transport ∧
    coinbase_worker (RateLimiter.mk 2 0) none
      [(10, NetResult.err FetchError.transport),
       (20, NetResult.ok (CoinbaseBook.mk [] [(1, 1)]))]
      = (none, false) := by
  have hallow : ((RateLimiter.mk 2 0).allow 10).1 = true := by
    rw [allow_true_iff]
    norm_num
  constructor
  · simp [fetch_coinbase, hallow]
  · simp [coinbase_worker, fetch_coinbase, hallow]

/-- C4 counterexample: with configured depth `0` and a venue that
returned one bid level, the merged book keeps that level, so the
per-venue per-side count is `1`, not `min 0 1 = 0` — the claim fails
for depth `N = 0`. -/
theorem depth_truncation_minzero_cex :
    venueCount (build_internal_order_book (some (CoinbaseBook.mk [(1, 1)] [])) none (some 0)).bids
      "coinbase" ≠ min 0 1 := by
  decide

/-- C4 (amended): for every configured depth `N ≥ 1` (the claim fails
for `N = 0`, which Python truthiness treats as unset), the merged book
contains, per venue and per side, exactly `min(N, available)` levels,
taken as a prefix in the order the venue returned them. -/
theorem depth_truncation_per_venue (cb : Option CoinbaseBook) (gm : Option GeminiBook)
    (N : ℕ) (hN : 1 ≤ N) :
    ((build_internal_order_book cb gm (some N)).bids.filter (fun l => l.exchange = "coinbase")
        = ((coinbaseBids cb).take (min N (coinbaseBids cb).length)).map
            (fun l => Level.mk l.1 l.2 "coinbase")) ∧
    ((build_internal_order_book cb gm (some N)).bids.filter (fun l => l.exchange = "gemini")
        = ((geminiBids gm).take (min N (geminiBids gm).length)).map
            (fun l => Level.mk l.price l.amount "gemini")) ∧
    ((build_internal_order_book cb gm (some N)).asks.filter (fun l => l.exchange = "coinbase")
        = ((coinbaseAsks cb).take (min N (coinbaseAsks cb).length)).map
            (fun l => Level.mk l.1 l.2 "coinbase")) ∧
    ((build_internal_order_book cb gm (some N)).asks.filter (fun l => l.exchange = "gemini")
        = ((geminiAsks gm).take (min N (geminiAsks gm).length)).map
            (fun l => Level.mk l.price l.amount "gemini")) ∧
    venueCount (build_internal_order_book cb gm (some N)).bids "coinbase"
      = min N (coinbaseBids cb).length ∧
    venueCount (build_internal_order_book cb gm (some N)).bids "gemini"
      = min N (geminiBids gm).length ∧
    venueCount (build_internal_order_book cb gm (some N)).asks "coinbase"
      = min N (coinbaseAsks cb).length ∧
    venueCount (build_internal_order_book cb gm (some N)).asks "gemini"
      = min N (geminiAsks gm).length := by
  have hNz : N ≠ 0 := by omega
  have heff : ∀ a : ℕ, effDepth (some N) a = min N a := by
    intro a
    simp [effDepth, hNz]
  have hbids : (build_internal_order_book cb gm (some N)).bids
      = ((coinbaseBids cb).take (min N (coinbaseBids cb).length)).map
          (fun l => Level.mk l.1 l.2 "coinbase")
        ++ ((geminiBids gm).take (min N (geminiBids gm).length)).map
          (fun l => Level.mk l.price l.amount "gemini") := by
    simp [build_internal_order_book, heff]
  have hasks : (build_internal_order_book cb gm (some N)).asks
      = ((coinbaseAsks cb).take (min N (coinbaseAsks cb).length)).map
          (fun l => Level.mk l.1 l.2 "coinbase")
        ++ ((geminiAsks gm).take (min N (geminiAsks gm).length)).map
          (fun l => Level.mk l.price l.amount "gemini") := by
    simp [build_internal_order_book, heff]
  refine ⟨?_, ?_, ?_, ?_, ?_, ?_, ?_, ?_⟩ <;>
    simp only [venueCount, hbids, hasks, filter_merged_coinbase, filter_merged_gemini,
      List.length_map, List.length_take] <;>
    omega

/-- Witness for the amended C4 at depth `1` with the example snapshots
(coinbase returned two ask levels, gemini one). -/
theorem depth_truncation_per_venue_witness :
    1 ≤ 1 ∧
    ((build_internal_order_book (some exampleCoinbase) (some exampleGemini) (some 1)).bids.filter
          (fun l => l.exchange = "coinbase")
        = ((coinbaseBids (some exampleCoinbase)).take
            (min 1 (coinbaseBids (some exampleCoinbase)).length)).map
            (fun l => Level.mk l.1 l.2 "coinbase")) ∧
    ((build_internal_order_book (some exampleCoinbase) (some exampleGemini) (some 1)).bids.filter
          (fun l => l.exchange = "gemini")
        = ((geminiBids (some exampleGemini)).take
            (min 1 (geminiBids (some exampleGemini)).length)).map
            (fun l => Level.mk l.price l.amount "gemini")) ∧
    ((build_internal_order_book (some exampleCoinbase) (some exampleGemini) (some 1)).asks.filter
          (fun l => l.exchange = "coinbase")
        = ((coinbaseAsks (some exampleCoinbase)).take
            (min 1 (coinbaseAsks (some exampleCoinbase)).length)).map
            (fun l => Level.mk l.1 l.2 "coinbase")) ∧
    ((build_internal_order_book (some exampleCoinbase) (some exampleGemini) (some 1)).asks.filter
          (fun l => l.exchange = "gemini")
        = ((geminiAsks (some exampleGemini)).take
            (min 1 (geminiAsks (some exampleGemini)).length)).map
            (fun l => Level.mk l.price l.amount "gemini")) ∧
    venueCount (build_internal_order_book (some exampleCoinbase) (some exampleGemini)
        (some 1)).bids "coinbase"
      = min 1 (coinbaseBids (some exampleCoinbase)).length ∧
    venueCount (build_internal_order_book (some exampleCoinbase) (some exampleGemini)
        (some 1)).bids "gemini"
      = min 1 (geminiBids (some exampleGemini)).length ∧
    venueCount (build_internal_order_book (some exampleCoinbase) (some exampleGemini)
        (some 1)).asks "coinbase"
      = min 1 (coinbaseAsks (some exampleCoinbase)).length ∧
    venueCount (build_internal_order_book (some exampleCoinbase) (some exampleGemini)
        (some 1)).asks "gemini"
      = min 1 (geminiAsks (some exampleGemini)).length :=
  ⟨by norm_num,
   depth_truncation_per_venue (some exampleCoinbase) (some exampleGemini) 1 (by norm_num)⟩

/-- C1: for every merged book whose ask side has total size at least
the requested quantity (quantity positive, all level sizes
nonnegative), the buy-side simulation leaves zero remainder, the fill
sizes sum to exactly the requested quantity, the fills are the greedy
walk of the asks sorted ascending by price, and the total cost is the
sum of `size_take * price` over those fills. -/
theorem buy_side_full_fill (book : InternalBook) (q : ℚ) (hq : 0 < q)
    (hsz : ∀ l ∈ book.asks, 0 ≤ l.size)
    (htot : q ≤ (book.asks.map Level.size).sum) :
    (calculate_execution_prices book q).remaining_buy = 0 ∧
    ((calculate_execution_prices book q).buy_fills.map Fill.size).sum = q ∧
    (calculate_execution_prices book q).buy_fills = (execWalk (sortAsks book.asks) q).fills ∧
    (calculate_execution_prices book q).cost_buy
      = ((calculate_execution_prices book q).buy_fills.map (fun f => f.size * f.price)).sum := by
  have hsz' : ∀ l ∈ sortAsks book.asks, 0 ≤ l.size := fun l hl => hsz l (mem_sortAsks.mp hl)
  have htot' : q ≤ ((sortAsks book.asks).map Level.size).sum := by
    rw [sum_size_sortAsks]
    exact htot
  have hrem := execWalk_remaining_zero (sortAsks book.asks) q hsz' (le_of_lt hq) htot'
  have hrs := execWalk_remaining_eq (sortAsks book.asks) q
  refine ⟨by rw [calc_remaining_buy]; exact hrem, ?_, rfl, ?_⟩
  · rw [calc_buy_fills]
    rw [hrem] at hrs
    linarith
  · rw [calc_cost_buy, calc_buy_fills]
    exact execWalk_total_eq _ _

/-- Witness for C1: the specification's concrete scenario — coinbase
asks `[[100, 1], [101, 2]]`, gemini asks `[{100.5, 1.5}]`, depth 2,
quantity 2 — where the buy cost is `200.5`. -/
theorem buy_side_full_fill_witness :
    ((0 : ℚ) < 2 ∧ (∀ l ∈ exampleBook.asks, 0 ≤ l.size) ∧
      (2 : ℚ) ≤ (exampleBook.asks.map Level.size).sum) ∧
    ((calculate_execution_prices exampleBook 2).remaining_buy = 0 ∧
      ((calculate_execution_prices exampleBook 2).buy_fills.map Fill.size).sum = 2 ∧
      (calculate_execution_prices exampleBook 2).buy_fills
        = (execWalk (sortAsks exampleBook.asks) 2).fills ∧
      (calculate_execution_prices exampleBook 2).cost_buy
        = ((calculate_execution_prices exampleBook 2).buy_fills.map
            (fun f => f.size * f.price)).sum) ∧
    (calculate_execution_prices exampleBook 2).cost_buy = 401 / 2 :=
  ⟨⟨by norm_num,
    by
      norm_num [exampleBook, exampleCoinbase, exampleGemini, build_internal_order_book,
        effDepth, coinbaseBids, geminiBids, coinbaseAsks, geminiAsks],
    by
      norm_num [exampleBook, exampleCoinbase, exampleGemini, build_internal_order_book,
        effDepth, coinbaseBids, geminiBids, coinbaseAsks, geminiAsks]⟩,
   buy_side_full_fill exampleBook 2 (by norm_num)
     (by
       norm_num [exampleBook, exampleCoinbase, exampleGemini, build_internal_order_book,
         effDepth, coinbaseBids, geminiBids, coinbaseAsks, geminiAsks])
     (by
       norm_num [exampleBook, exampleCoinbase, exampleGemini, build_internal_order_book,
         effDepth, coinbaseBids, geminiBids, coinbaseAsks, geminiAsks]),
   by
     norm_num [exampleBook, exampleCoinbase, exampleGemini, build_internal_order_book,
       effDepth, coinbaseBids, geminiBids, coinbaseAsks, geminiAsks,
       calculate_execution_prices, execWalk, sortAsks, sortBids,
       List.insertionSort, List.orderedInsert, min_def]⟩

/-- C5: for every merged book side whose total available size (all
level sizes nonnegative) is strictly below the positive requested
quantity, the simulation consumes every level of that side fully — the
fills are exactly the full-size fills of the sorted side — and the
remainder equals the quantity minus the total available size. -/
theorem insufficient_liquidity_full_consume (book : InternalBook) (q : ℚ) (hq : 0 < q) :
    ((∀ l ∈ book.asks, 0 ≤ l.size) → (book.asks.map Level.size).sum < q →
      (calculate_execution_prices book q).buy_fills
          = (sortAsks book.asks).map
              (fun l => Fill.mk l.exchange l.size l.price (l.size * l.price)) ∧
      (calculate_execution_prices book q).remaining_buy
          = q - (book.asks.map Level.size).sum) ∧
    ((∀ l ∈ book.bids, 0 ≤ l.size) → (book.bids.map Level.size).sum < q →
      (calculate_execution_prices book q).sell_fills
          = (sortBids book.bids).map
              (fun l => Fill.mk l.exchange l.size l.price (l.size * l.price)) ∧
      (calculate_execution_prices book q).remaining_sell
          = q - (book.bids.map Level.size).sum) := by
  constructor
  · intro hsz htot
    have hsz' : ∀ l ∈ sortAsks book.asks, 0 ≤ l.size := fun l hl => hsz l (mem_sortAsks.mp hl)
    have htot' : ((sortAsks book.asks).map Level.size).sum < q := by
      rw [sum_size_sortAsks]
      exact htot
    obtain ⟨h1, h2⟩ := execWalk_full_consume (sortAsks book.asks) q hsz' htot'
    refine ⟨by rw [calc_buy_fills]; exact h1, ?_⟩
    rw [calc_remaining_buy, h2, sum_size_sortAsks]
  · intro hsz htot
    have hsz' : ∀ l ∈ sortBids book.bids, 0 ≤ l.size := fun l hl => hsz l (mem_sortBids.mp hl)
    have htot' : ((sortBids book.bids).map Level.size).sum < q := by
      rw [sum_size_sortBids]
      exact htot
    obtain ⟨h1, h2⟩ := execWalk_full_consume (sortBids book.bids) q hsz' htot'
    refine ⟨by rw [calc_sell_fills]; exact h1, ?_⟩
    rw [calc_remaining_sell, h2, sum_size_sortBids]

/-- Witness for C5: the specification's second concrete scenario — the
example book with quantity 10, total ask size `4.5`, buy cost `452.75`
and remainder `5.5`. -/
theorem insufficient_liquidity_full_consume_witness :
    (0 : ℚ) < 10 ∧
    (∀ l ∈ exampleBook.asks, 0 ≤ l.size) ∧
    (exampleBook.asks.map Level.size).sum < 10 ∧
    (calculate_execution_prices exampleBook 10).buy_fills
        = (sortAsks exampleBook.asks).map
            (fun l => Fill.mk l.exchange l.size l.price (l.size * l.price)) ∧
    (calculate_execution_prices exampleBook 10).remaining_buy
        = 10 - (exampleBook.asks.map Level.size).sum ∧
    (calculate_execution_prices exampleBook 10).cost_buy = 1811 / 4 ∧
    (calculate_execution_prices exampleBook 10).remaining_buy = 11 / 2 :=
  ⟨by norm_num,
   by
     norm_num [exampleBook, exampleCoinbase, exampleGemini, build_internal_order_book,
       effDepth, coinbaseBids, geminiBids, coinbaseAsks, geminiAsks],
   by
     norm_num [exampleBook, exampleCoinbase, exampleGemini, build_internal_order_book,
       effDepth, coinbaseBids, geminiBids, coinbaseAsks, geminiAsks],
   ((insufficient_liquidity_full_consume exampleBook 10 (by norm_num)).1
      (by
        norm_num [exampleBook, exampleCoinbase, exampleGemini, build_internal_order_book,
          effDepth, coinbaseBids, geminiBids, coinbaseAsks, geminiAsks])
      (by
        norm_num [exampleBook, exampleCoinbase, exampleGemini, build_internal_order_book,
          effDepth, coinbaseBids, geminiBids, coinbaseAsks, geminiAsks])).1,
   ((insufficient_liquidity_full_consume exampleBook 10 (by norm_num)).1
      (by
        norm_num [exampleBook, exampleCoinbase, exampleGemini, build_internal_order_book,
          effDepth, coinbaseBids, geminiBids, coinbaseAsks, geminiAsks])
      (by
        norm_num [exampleBook, exampleCoinbase, exampleGemini, build_internal_order_book,
          effDepth, coinbaseBids, geminiBids, coinbaseAsks, geminiAsks])).2,
   by
     norm_num [exampleBook, exampleCoinbase, exampleGemini, build_internal_order_book,
       effDepth, coinbaseBids, geminiBids, coinbaseAsks, geminiAsks,
       calculate_execution_prices, execWalk, sortAsks, sortBids,
       List.insertionSort, List.orderedInsert, min_def],
   by
     norm_num [exampleBook, exampleCoinbase, exampleGemini, build_internal_order_book,
       effDepth, coinbaseBids, geminiBids, coinbaseAsks, geminiAsks,
       calculate_execution_prices, execWalk, sortAsks, sortBids,
       List.insertionSort, List.orderedInsert, min_def]⟩

/-- C2: `allow()` returns true and records the current time iff the
elapsed time since the last allowed call reaches the minimum interval,
otherwise it returns false and changes no state; consequently, for a
positive minimum interval, no two calls of one allow-trace that return
true occur closer together in time than that interval. -/
theorem rate_limiter_allow_spec (rl : RateLimiter) (now : ℚ) (times : List ℚ)
    (hm : 0 < rl.min_interval) :
    ((rl.allow now).1 = true ↔ rl.min_interval ≤ now - rl.last_called) ∧
    ((rl.allow now).1 = true → (rl.allow now).2 = RateLimiter.mk rl.min_interval now) ∧
    ((rl.allow now).1 = false → (rl.allow now).2 = rl) ∧
    (∀ (i j : ℕ) (ti tj : ℚ), i < j →
      (allowTrace rl times)[i]? = some true →
      (allowTrace rl times)[j]? = some true →
      times[i]? = some ti → times[j]? = some tj →
      rl.min_interval ≤ tj - ti) :=
  ⟨allow_true_iff rl now, allow_true_state rl now, allow_false_state rl now,
   fun i j ti tj hij hi hj hti htj =>
     allowTrace_spacing times rl (le_of_lt hm) i j ti tj hij hi hj hti htj⟩

/-- Witness for C2 at the concrete limiter `⟨2, 0⟩`, current time `5`
and call times `[5, 6, 8]` (results true, false, true). -/
theorem rate_limiter_allow_spec_witness :
    (0 : ℚ) < (RateLimiter.mk 2 0).min_interval ∧
    (((RateLimiter.mk 2 0).allow 5).1 = true ↔
        (RateLimiter.mk 2 0).min_interval ≤ 5 - (RateLimiter.mk 2 0).last_called) ∧
    (((RateLimiter.mk 2 0).allow 5).1 = true →
        ((RateLimiter.mk 2 0).allow 5).2 = RateLimiter.mk (RateLimiter.mk 2 0).min_interval 5) ∧
    (((RateLimiter.mk 2 0).allow 5).1 = false → ((RateLimiter.mk 2 0).allow 5).2
        = RateLimiter.mk 2 0) ∧
    (∀ (i j : ℕ) (ti tj : ℚ), i < j →
      (allowTrace (RateLimiter.mk 2 0) [5, 6, 8])[i]? = some true →
      (allowTrace (RateLimiter.mk 2 0) [5, 6, 8])[j]? = some true →
      [(5 : ℚ), 6, 8][i]? = some ti → [(5 : ℚ), 6, 8][j]? = some tj →
      (RateLimiter.mk 2 0).min_interval ≤ tj - ti) :=
  ⟨by norm_num, rate_limiter_allow_spec (RateLimiter.mk 2 0) 5 [5, 6, 8] (by norm_num)⟩

/-- C8: invoking a fetcher while its rate limiter denies the call is a
no-op: no network request is made, no exception escapes, and the
stored snapshot and the limiter state are returned exactly unchanged —
for both venues. -/
theorem denied_fetch_frame (rl : RateLimiter) (now : ℚ)
    (snapC : Option CoinbaseBook) (netC : NetResult CoinbaseBook)
    (snapG : Option GeminiBook) (netG : NetResult GeminiBook)
    (hdeny : (rl.allow now).1 = false) :
    fetch_coinbase rl snapC now netC = FetchOut.mk (Except.ok ()) snapC rl false ∧
    fetch_gemini rl snapG now netG = FetchOut.mk (Except.ok ()) snapG rl false := by
  have hst := allow_false_state rl now hdeny
  constructor
  · simp [fetch_coinbase, hdeny, hst]
  · simp [fetch_gemini, hdeny, hst]

/-- Witness for C8: a limiter last allowed at time `100` with interval
`2` denies a call at time `101`; both fetchers leave everything
unchanged. -/
theorem denied_fetch_frame_witness :
    ((RateLimiter.mk 2 100).allow 101).1 = false ∧
    fetch_coinbase (RateLimiter.mk 2 100) (some exampleCoinbase) 101
        (NetResult.ok (CoinbaseBook.mk [] []))
      = FetchOut.mk (Except.ok ()) (some exampleCoinbase) (RateLimiter.mk 2 100) false ∧
    fetch_gemini (RateLimiter.mk 2 100) (some exampleGemini) 101
        (NetResult.err FetchError.schema)
      = FetchOut.mk (Except.ok ()) (some exampleGemini) (RateLimiter.mk 2 100) false :=
  ⟨by norm_num [RateLimiter.allow],
   (denied_fetch_frame (RateLimiter.mk 2 100) 101 (some exampleCoinbase)
      (NetResult.ok (CoinbaseBook.mk [] [])) (some exampleGemini)
      (NetResult.err FetchError.schema) (by norm_num [RateLimiter.allow])).1,
   (denied_fetch_frame (RateLimiter.mk 2 100) 101 (some exampleCoinbase)
      (NetResult.ok (CoinbaseBook.mk [] [])) (some exampleGemini)
      (NetResult.err FetchError.schema) (by norm_num [RateLimiter.allow])).2⟩

end OrderBookAgg
